import Mathlib

set_option maxRecDepth 8000

/-!
Verification of the technical-indicator pipeline and snapshot builder of the
personal-quant repository (apps/web/src/lib/indicators.ts, the AI payload
builder, and the stats computation in apps/web/src/App.tsx).

JS numbers are modelled as exact rationals; nullable slots (JS null or
undefined where the code treats them alike) as Option.  Indicator periods are
modelled as integers so that the `period <= 0` guards of the source are
expressible.
-/

/-- Sum of the trailing window values[i-p .. i-1] (lower bound truncated at 0
by Nat subtraction, exactly matching the running-sum state of `sma`). -/
def winSum (values : List ℚ) (p i : ℕ) : ℚ :=
  ∑ j ∈ Finset.Ico (i - p) i, values.getD j 0

/-- Loop of `sma` from indicators.ts: running sum `s`, position `i`, remaining
iterations `n` (the caller passes `n = values.length`).  Each step adds
`values[i]`, subtracts `values[i-period]` once `i >= period`, and emits
`sum / period` once `i >= period - 1`, else null. -/
def smaAux (values : List ℚ) (p : ℕ) : ℕ → ℚ → ℕ → List (Option ℚ)
  | _, _, 0 => []
  | i, s, n + 1 =>
    let s1 := s + values.getD i 0
    let s2 := if p ≤ i then s1 - values.getD (i - p) 0 else s1
    (if p - 1 ≤ i then some (s2 / (p : ℚ)) else none) :: smaAux values p (i + 1) s2 n

/-- Simple Moving Average, `sma` of indicators.ts: all-null output for
`period <= 0`, otherwise the running-sum loop. -/
def sma (values : List ℚ) (period : ℤ) : List (Option ℚ) :=
  if period ≤ 0 then List.replicate values.length none
  else smaAux values period.toNat 0 0 values.length

lemma winSum_zero (values : List ℚ) (p : ℕ) : winSum values p 0 = 0 := by
  simp [winSum]

lemma winSum_succ (values : List ℚ) (p i : ℕ) (hp : 1 ≤ p) :
    winSum values p (i + 1) =
      (if p ≤ i then winSum values p i + values.getD i 0 - values.getD (i - p) 0
       else winSum values p i + values.getD i 0) := by
  unfold winSum
  have h1 : i + 1 - p ≤ i := by omega
  rw [Finset.sum_Ico_succ_top h1]
  by_cases hpi : p ≤ i
  · rw [if_pos hpi]
    have h2 : i - p < i := by omega
    rw [Finset.sum_eq_sum_Ico_succ_bot h2]
    have h3 : i + 1 - p = i - p + 1 := by omega
    rw [h3]
    ring
  · rw [if_neg hpi]
    have h3 : i + 1 - p = i - p := by omega
    rw [h3]

lemma smaAux_eq (values : List ℚ) (p : ℕ) (hp : 1 ≤ p) :
    ∀ (n i : ℕ) (s : ℚ), s = winSum values p i →
      smaAux values p i s n = (List.range' i n).map
        (fun j => if p - 1 ≤ j then some (winSum values p (j + 1) / (p : ℚ)) else none) := by
  intro n
  induction n with
  | zero => intro i s _; simp [smaAux]
  | succ n ih =>
    intro i s hs
    have hstep : (if p ≤ i then s + values.getD i 0 - values.getD (i - p) 0
        else s + values.getD i 0) = winSum values p (i + 1) := by
      rw [winSum_succ values p i hp, hs]
    show smaAux values p i s (n + 1) = _
    rw [List.range'_succ, List.map_cons]
    unfold smaAux
    simp only []
    by_cases hpi : p ≤ i
    · rw [if_pos hpi] at hstep ⊢
      rw [hstep, ih (i + 1) _ rfl]
    · rw [if_neg hpi] at hstep ⊢
      rw [hstep, ih (i + 1) _ rfl]

lemma smaAux_length (values : List ℚ) (p : ℕ) :
    ∀ (n i : ℕ) (s : ℚ), (smaAux values p i s n).length = n := by
  intro n
  induction n with
  | zero => intro i s; simp [smaAux]
  | succ n ih => intro i s; unfold smaAux; simp [ih]

lemma range_map_getD {α : Type} (f : ℕ → α) (n i : ℕ) (d : α) (h : i < n) :
    ((List.range n).map f).getD i d = f i := by
  rw [List.getD_eq_getElem?_getD, List.getElem?_map, List.getElem?_range h]
  rfl

lemma sma_eq_pos (values : List ℚ) (period : ℤ) (hp : 1 ≤ period) :
    sma values period = (List.range values.length).map
      (fun j => if period.toNat - 1 ≤ j then
        some (winSum values period.toNat (j + 1) / (period.toNat : ℚ)) else none) := by
  unfold sma
  rw [if_neg (by omega), List.range_eq_range']
  exact smaAux_eq values period.toNat (by omega) values.length 0 0
    (winSum_zero values period.toNat).symm

lemma sma_length (values : List ℚ) (period : ℤ) :
    (sma values period).length = values.length := by
  unfold sma
  by_cases h : period ≤ 0
  · rw [if_pos h, List.length_replicate]
  · rw [if_neg h, smaAux_length]

lemma sma_getD_nonpos (values : List ℚ) (period : ℤ) (hp : period ≤ 0) (i : ℕ) :
    (sma values period).getD i none = none := by
  unfold sma
  rw [if_pos hp, List.getD_eq_getElem?_getD, List.getElem?_replicate]
  by_cases h : i < values.length <;> simp [h]

lemma sma_getD_early (values : List ℚ) (period : ℤ) (hp : 1 ≤ period) (i : ℕ)
    (hi : i < values.length) (h : (i : ℤ) < period - 1) :
    (sma values period).getD i none = none := by
  rw [sma_eq_pos values period hp, range_map_getD _ _ _ _ hi, if_neg (by omega)]

lemma sma_getD_window (values : List ℚ) (period : ℤ) (hp : 1 ≤ period) (i : ℕ)
    (hi : i < values.length) (h : period - 1 ≤ (i : ℤ)) :
    (sma values period).getD i none =
      some (winSum values period.toNat (i + 1) / (period.toNat : ℚ)) := by
  rw [sma_eq_pos values period hp, range_map_getD _ _ _ _ hi, if_pos (by omega)]

/-- Simple average of the first p values, i.e. the EMA seed of indicators.ts. -/
def seedAvg (values : List ℚ) (p : ℕ) : ℚ :=
  (∑ j ∈ Finset.Ico 0 p, values.getD j 0) / (p : ℚ)

/-- Closed form of the values the `ema` loop writes: the SMA seed up to index
p-1, then the exponential recurrence. -/
def emaVal (values : List ℚ) (p : ℕ) (k : ℚ) : ℕ → ℚ
  | 0 => seedAvg values p
  | i + 1 =>
    if p ≤ i + 1 then values.getD (i + 1) 0 * k + emaVal values p k i * (1 - k)
    else seedAvg values p

/-- Loop of `ema` from indicators.ts: running seed sum `s`, previously emitted
value `prev` (read only once `i >= period`), position `i`, remaining
iterations `n`. -/
def emaAux (values : List ℚ) (p : ℕ) (k : ℚ) : ℕ → ℚ → ℚ → ℕ → List (Option ℚ)
  | _, _, _, 0 => []
  | i, s, prev, n + 1 =>
    let v := values.getD i 0
    if i < p then
      if i = p - 1 then
        some ((s + v) / (p : ℚ)) :: emaAux values p k (i + 1) (s + v) ((s + v) / (p : ℚ)) n
      else
        none :: emaAux values p k (i + 1) (s + v) prev n
    else
      some (v * k + prev * (1 - k)) :: emaAux values p k (i + 1) s (v * k + prev * (1 - k)) n

/-- Exponential Moving Average, `ema` of indicators.ts: all-null for
`period <= 0`, otherwise seeded by the simple average of the first `period`
values, with smoothing factor k = 2/(period+1). -/
def ema (values : List ℚ) (period : ℤ) : List (Option ℚ) :=
  if period ≤ 0 then List.replicate values.length none
  else emaAux values period.toNat (2 / ((period : ℚ) + 1)) 0 0 0 values.length

lemma emaVal_seed (values : List ℚ) (p : ℕ) (k : ℚ) (hp : 1 ≤ p) :
    emaVal values p k (p - 1) = seedAvg values p := by
  cases p with
  | zero => omega
  | succ q =>
    cases q with
    | zero => rfl
    | succ m =>
      show emaVal values (m + 2) k (m + 1) = _
      rw [emaVal, if_neg (by omega)]

lemma emaVal_rec (values : List ℚ) (p : ℕ) (k : ℚ) (i : ℕ) (hp : 1 ≤ p) (h : p ≤ i) :
    emaVal values p k i = values.getD i 0 * k + emaVal values p k (i - 1) * (1 - k) := by
  rcases Nat.exists_eq_add_of_le (show 1 ≤ i by omega) with ⟨m, hm⟩
  subst hm
  rw [show 1 + m = m + 1 by omega, emaVal, if_pos (by omega)]
  simp

lemma emaAux_eq (values : List ℚ) (p : ℕ) (k : ℚ) (hp : 1 ≤ p) :
    ∀ (n i : ℕ) (s prev : ℚ),
      s = ∑ j ∈ Finset.Ico 0 (min i p), values.getD j 0 →
      (p ≤ i → prev = emaVal values p k (i - 1)) →
      emaAux values p k i s prev n = (List.range' i n).map
        (fun j => if j + 1 < p then none else some (emaVal values p k j)) := by
  intro n
  induction n with
  | zero => intro i s prev _ _; simp [emaAux]
  | succ n ih =>
    intro i s prev hs hprev
    rw [List.range'_succ, List.map_cons]
    unfold emaAux
    simp only []
    by_cases hip : i < p
    · by_cases hseed : i = p - 1
      · rw [if_pos hip, if_pos hseed]
        have hsum : s + values.getD i 0 = ∑ j ∈ Finset.Ico 0 p, values.getD j 0 := by
          rw [hs, min_eq_left (by omega)]
          rw [show p = i + 1 by omega, Finset.sum_Ico_succ_top (by omega)]
        have hseedv : (s + values.getD i 0) / (p : ℚ) = emaVal values p k i := by
          have h1 : emaVal values p k i = seedAvg values p := by
            rw [hseed]; exact emaVal_seed values p k hp
          rw [h1]
          unfold seedAvg
          rw [hsum]
        rw [hseedv, if_neg (by omega)]
        congr 1
        refine ih (i + 1) _ _ ?_ ?_
        · rw [min_eq_right (by omega), ← hsum]
        · intro _
          rw [Nat.add_sub_cancel]
      · rw [if_pos hip, if_neg hseed, if_pos (by omega)]
        congr 1
        refine ih (i + 1) _ _ ?_ ?_
        · rw [min_eq_left (by omega), hs, min_eq_left (by omega),
            Finset.sum_Ico_succ_top (by omega)]
        · intro hcon; omega
    · rw [if_neg hip]
      have hprev' : prev = emaVal values p k (i - 1) := hprev (by omega)
      have hval : values.getD i 0 * k + prev * (1 - k) = emaVal values p k i := by
        rw [hprev', ← emaVal_rec values p k i hp (by omega)]
      rw [hval, if_neg (by omega)]
      congr 1
      refine ih (i + 1) _ _ ?_ ?_
      · rw [hs, min_eq_right (by omega), min_eq_right (by omega)]
      · intro _
        rw [Nat.add_sub_cancel]

lemma emaAux_length (values : List ℚ) (p : ℕ) (k : ℚ) :
    ∀ (n i : ℕ) (s prev : ℚ), (emaAux values p k i s prev n).length = n := by
  intro n
  induction n with
  | zero => intro i s prev; simp [emaAux]
  | succ n ih =>
    intro i s prev
    unfold emaAux
    simp only []
    by_cases hip : i < p
    · by_cases hseed : i = p - 1
      · rw [if_pos hip, if_pos hseed]; simp [ih]
      · rw [if_pos hip, if_neg hseed]; simp [ih]
    · rw [if_neg hip]; simp [ih]

lemma ema_length (values : List ℚ) (period : ℤ) :
    (ema values period).length = values.length := by
  unfold ema
  by_cases h : period ≤ 0
  · rw [if_pos h, List.length_replicate]
  · rw [if_neg h, emaAux_length]

lemma ema_eq_pos (values : List ℚ) (period : ℤ) (hp : 1 ≤ period) :
    ema values period = (List.range values.length).map
      (fun j => if j + 1 < period.toNat then none
        else some (emaVal values period.toNat (2 / ((period : ℚ) + 1)) j)) := by
  unfold ema
  rw [if_neg (by omega), List.range_eq_range']
  exact emaAux_eq values period.toNat _ (by omega) values.length 0 0 0 (by simp)
    (fun h => absurd h (by omega))

lemma ema_getD_early (values : List ℚ) (period : ℤ) (hp : 1 ≤ period) (i : ℕ)
    (hi : i < values.length) (h : (i : ℤ) < period - 1) :
    (ema values period).getD i none = none := by
  rw [ema_eq_pos values period hp, range_map_getD _ _ _ _ hi, if_pos (by omega)]

lemma ema_getD_late (values : List ℚ) (period : ℤ) (hp : 1 ≤ period) (i : ℕ)
    (hi : i < values.length) (h : period - 1 ≤ (i : ℤ)) :
    (ema values period).getD i none =
      some (emaVal values period.toNat (2 / ((period : ℚ) + 1)) i) := by
  rw [ema_eq_pos values period hp, range_map_getD _ _ _ _ hi, if_neg (by omega)]

lemma ema_getD_nonpos (values : List ℚ) (period : ℤ) (hp : period ≤ 0) (i : ℕ) :
    (ema values period).getD i none = none := by
  unfold ema
  rw [if_pos hp, List.getD_eq_getElem?_getD, List.getElem?_replicate]
  by_cases h : i < values.length <;> simp [h]

/-- Claim C1: for every period p ≥ 1, `sma` returns a sequence of the input's
length whose entry at index i is null for i < p-1 and equals the arithmetic
mean of values[i-p+1..i] (window sum over indices i+1-p .. i divided by p)
for i ≥ p-1; for p ≤ 0 every entry is null. -/
theorem sma_window_invariant (values : List ℚ) (p : ℤ) :
    (sma values p).length = values.length ∧
    (p ≤ 0 → ∀ i : ℕ, (sma values p).getD i none = none) ∧
    (1 ≤ p → ∀ i : ℕ, i < values.length →
      (((i : ℤ) < p - 1 → (sma values p).getD i none = none) ∧
       (p - 1 ≤ (i : ℤ) → (sma values p).getD i none =
         some ((∑ j ∈ Finset.Ico (i + 1 - p.toNat) (i + 1), values.getD j 0) /
           (p.toNat : ℚ))))) := by
  refine ⟨sma_length values p, fun hp i => sma_getD_nonpos values p hp i, fun hp i hi => ⟨?_, ?_⟩⟩
  · exact sma_getD_early values p hp i hi
  · intro h
    rw [sma_getD_window values p hp i hi h]
    rfl

theorem sma_window_invariant_witness :
    (sma [1, 2, 3] 2).getD 2 none =
      some ((∑ j ∈ Finset.Ico (2 + 1 - (2 : ℤ).toNat) (2 + 1), ([1, 2, 3] : List ℚ).getD j 0) /
        (((2 : ℤ).toNat : ℚ))) :=
  ((sma_window_invariant [1, 2, 3] 2).2.2 (by decide) 2 (by decide)).2 (by decide)

/-- Claim C2: for p ≥ 1 and at least p closes, `ema` at index p-1 equals
`sma` at index p-1 exactly (shared simple-average seed), entries before p-1
are null, and each entry at index i ≥ p is values[i]*k + prev*(1-k) with
k = 2/(p+1) and prev the (defined) entry at index i-1. -/
theorem ema_seed_and_recurrence (values : List ℚ) (p : ℤ) (hp : 1 ≤ p)
    (hlen : p.toNat ≤ values.length) :
    (ema values p).getD (p.toNat - 1) none = (sma values p).getD (p.toNat - 1) none ∧
    (∀ i : ℕ, (i : ℤ) < p - 1 → (ema values p).getD i none = none) ∧
    (∀ i : ℕ, p.toNat ≤ i → i < values.length →
      ∃ prev, (ema values p).getD (i - 1) none = some prev ∧
        (ema values p).getD i none =
          some (values.getD i 0 * (2 / ((p : ℚ) + 1)) +
            prev * (1 - 2 / ((p : ℚ) + 1)))) := by
  refine ⟨?_, ?_, ?_⟩
  · rw [ema_getD_late values p hp (p.toNat - 1) (by omega) (by omega),
      sma_getD_window values p hp (p.toNat - 1) (by omega) (by omega),
      emaVal_seed values p.toNat _ (by omega)]
    unfold seedAvg winSum
    rw [show p.toNat - 1 + 1 = p.toNat by omega, Nat.sub_self]
  · intro i hi
    exact ema_getD_early values p hp i (by omega) hi
  · intro i hpi hi
    refine ⟨emaVal values p.toNat (2 / ((p : ℚ) + 1)) (i - 1), ?_, ?_⟩
    · exact ema_getD_late values p hp (i - 1) (by omega) (by omega)
    · rw [ema_getD_late values p hp i hi (by omega),
        emaVal_rec values p.toNat _ i (by omega) (by omega)]

theorem ema_seed_and_recurrence_witness :
    (ema [1, 2, 3] 2).getD ((2 : ℤ).toNat - 1) none =
      (sma [1, 2, 3] 2).getD ((2 : ℤ).toNat - 1) none :=
  (ema_seed_and_recurrence [1, 2, 3] 2 (by decide) (by decide)).1

/-- Smoothing loop of `rsi` from indicators.ts (Wilder smoothing), starting at
position `i` with previous average gain `pg` and loss `pl`, `n` iterations
remaining.  The JS code sets RS to Infinity when the updated average loss is
exactly 0, and 100 - 100/(1 + Infinity) evaluates to 100; that branch is
modelled by the explicit sentinel 100. -/
def rsiSmooth (values : List ℚ) (p : ℕ) : ℕ → ℚ → ℚ → ℕ → List (Option ℚ)
  | _, _, _, 0 => []
  | i, pg, pl, n + 1 =>
    let ch := values.getD i 0 - values.getD (i - 1) 0
    let g := max ch 0
    let l := max (-ch) 0
    let ng := (pg * ((p : ℚ) - 1) + g) / (p : ℚ)
    let nl := (pl * ((p : ℚ) - 1) + l) / (p : ℚ)
    (if nl = 0 then some 100 else some (100 - 100 / (1 + ng / nl))) ::
      rsiSmooth values p (i + 1) ng nl n

/-- RSI, `rsi` of indicators.ts: all-null when fewer than 2 values or
period ≤ 0; otherwise the seed averages come from the first `period` deltas
(loop bounds 1 ≤ i ≤ period and i < length), index `period` gets the seeded
value, and later indices are filled by Wilder smoothing.  As in `rsiSmooth`,
the avgLoss = 0 branch (RS = Infinity in JS) yields exactly 100. -/
def rsi (values : List ℚ) (period : ℤ) : List (Option ℚ) :=
  if values.length < 2 ∨ period ≤ 0 then List.replicate values.length none
  else
    let p := period.toNat
    let gainSum := ∑ i ∈ Finset.Ico 1 (min (p + 1) values.length),
      (if 0 ≤ values.getD i 0 - values.getD (i - 1) 0
       then values.getD i 0 - values.getD (i - 1) 0 else 0)
    let lossSum := ∑ i ∈ Finset.Ico 1 (min (p + 1) values.length),
      (if 0 ≤ values.getD i 0 - values.getD (i - 1) 0
       then 0 else -(values.getD i 0 - values.getD (i - 1) 0))
    if p < values.length then
      List.replicate p (none : Option ℚ) ++
        (if lossSum / (p : ℚ) = 0 then some 100
         else some (100 - 100 / (1 + (gainSum / (p : ℚ)) / (lossSum / (p : ℚ))))) ::
          rsiSmooth values p (p + 1) (gainSum / (p : ℚ)) (lossSum / (p : ℚ))
            (values.length - (p + 1))
    else List.replicate values.length none

lemma replicate_getD {α : Type} (n i : ℕ) (a d : α) (h : i < n) :
    (List.replicate n a).getD i d = a := by
  rw [List.getD_eq_getElem?_getD, List.getElem?_replicate, if_pos h]
  rfl

lemma rsiSmooth_mono (values : List ℚ) (p : ℕ) :
    ∀ (n i : ℕ) (g : ℚ), 1 ≤ i →
      (∀ j, i ≤ j → j < i + n → values.getD (j - 1) 0 < values.getD j 0) →
      rsiSmooth values p i g 0 n = List.replicate n (some 100) := by
  intro n
  induction n with
  | zero => intro i g _ _; simp [rsiSmooth]
  | succ n ih =>
    intro i g h1 hmono
    unfold rsiSmooth
    simp only []
    have hch : 0 < values.getD i 0 - values.getD (i - 1) 0 := by
      have := hmono i le_rfl (by omega)
      linarith
    have hl : max (-(values.getD i 0 - values.getD (i - 1) 0)) 0 = 0 :=
      max_eq_right (by linarith)
    have hnl : (0 * ((p : ℚ) - 1) +
        max (-(values.getD i 0 - values.getD (i - 1) 0)) 0) / (p : ℚ) = 0 := by
      rw [hl]
      simp
    rw [hnl, if_pos rfl,
      ih (i + 1) _ (by omega) (fun j hj1 hj2 => hmono j (by omega) (by omega))]
    rfl

lemma rsi_mono_eq (values : List ℚ) (period : ℤ) (hp : 1 ≤ period)
    (hlen : period.toNat < values.length)
    (hmono : ∀ i : ℕ, i + 1 < values.length →
      values.getD i 0 < values.getD (i + 1) 0) :
    rsi values period = List.replicate period.toNat none ++
      List.replicate (values.length - period.toNat) (some 100) := by
  unfold rsi
  have hguard : ¬(values.length < 2 ∨ period ≤ 0) := by
    rintro (h | h) <;> omega
  rw [if_neg hguard]
  simp only []
  rw [if_pos hlen]
  have hloss : (∑ i ∈ Finset.Ico 1 (min (period.toNat + 1) values.length),
      (if 0 ≤ values.getD i 0 - values.getD (i - 1) 0
       then 0 else -(values.getD i 0 - values.getD (i - 1) 0))) = 0 := by
    refine Finset.sum_eq_zero (fun i hi => ?_)
    rw [Finset.mem_Ico] at hi
    have hch : values.getD (i - 1) 0 < values.getD i 0 := by
      have := hmono (i - 1) (by omega)
      rw [show i - 1 + 1 = i by omega] at this
      exact this
    rw [if_pos (by linarith)]
  rw [hloss, zero_div, if_pos rfl,
    rsiSmooth_mono values period.toNat _ (period.toNat + 1) _ (by omega)
      (fun j hj1 hj2 => by
        have := hmono (j - 1) (by omega)
        rw [show j - 1 + 1 = j by omega] at this
        exact this)]
  have hx : values.length - (period.toNat + 1) + 1 = values.length - period.toNat := by
    omega
  rw [← List.replicate_succ, hx]

/-- Claim C5: for a strictly increasing close series longer than the period,
`rsi` is null at every index before `period` and exactly 100 from `period`
onward (the zero-average-loss branch, RS = Infinity in JS, yields 100); every
emitted entry is a defined rational, so no NaN/Infinity appears. -/
theorem rsi_monotone_saturation (values : List ℚ) (p : ℤ) (hp : 1 ≤ p)
    (hlen : p.toNat < values.length)
    (hmono : ∀ i : ℕ, i + 1 < values.length →
      values.getD i 0 < values.getD (i + 1) 0) :
    ∀ i : ℕ, i < values.length →
      (rsi values p).getD i none = if i < p.toNat then none else some 100 := by
  intro i hi
  rw [rsi_mono_eq values p hp hlen hmono]
  by_cases h : i < p.toNat
  · rw [if_pos h, List.getD_append _ _ _ _ (by simpa using h),
      replicate_getD _ _ _ _ h]
  · rw [if_neg h, List.getD_append_right _ _ _ _ (by simpa using h),
      List.length_replicate, replicate_getD _ _ _ _ (by omega)]

theorem rsi_monotone_saturation_witness :
    (rsi [0, 1, 2] 2).getD 2 none = if 2 < (2 : ℤ).toNat then none else some 100 :=
  rsi_monotone_saturation [0, 1, 2] 2 (by decide) (by decide)
    (fun i hi => by
      have h2 : i < 2 := by
        simp only [List.length_cons, List.length_nil] at hi
        omega
      interval_cases i <;> decide) 2 (by decide)

/-- JS runtime value reaching the rounding helper `r`: a finite number, one of
the non-finite numbers (NaN, +Infinity, -Infinity), or a non-numeric value
(null, undefined, string, object, ...). -/
inductive JSVal where
  | num (x : ℚ)
  | nan
  | posInf
  | negInf
  | nonNum
deriving DecidableEq

/-- Rounding helper `r` of the payload builder: null unless the input is a
finite number, otherwise Math.round(n * 10^d) / 10^d.  JS Math.round is
round-half-toward-positive-infinity, which is Mathlib's `round`. -/
def r (n : JSVal) (d : ℕ) : Option ℚ :=
  match n with
  | .num x => some (((round (x * 10 ^ d) : ℤ) : ℚ) / 10 ^ d)
  | _ => none

/-- Claim C6: `r` maps every non-finite or non-numeric input to null and every
finite number x to round(x * 10^d) / 10^d, and it is idempotent at a fixed
precision d (re-rounding the rounded value is a no-op). -/
theorem r_round_idempotent (d : ℕ) :
    (∀ x : ℚ, r (JSVal.num x) d = some (((round (x * 10 ^ d) : ℤ) : ℚ) / 10 ^ d)) ∧
    (∀ v : JSVal, (∀ x : ℚ, v ≠ JSVal.num x) → r v d = none) ∧
    (∀ x : ℚ, (r (JSVal.num x) d).bind (fun y => r (JSVal.num y) d) =
      r (JSVal.num x) d) := by
  refine ⟨fun x => rfl, ?_, ?_⟩
  · intro v hv
    cases v with
    | num x => exact absurd rfl (hv x)
    | nan => rfl
    | posInf => rfl
    | negInf => rfl
    | nonNum => rfl
  · intro x
    simp only [r, Option.some_bind]
    have hpow : ((10 : ℚ) ^ d) ≠ 0 := by positivity
    rw [div_mul_cancel₀ _ hpow, round_intCast]

theorem r_round_idempotent_witness : r JSVal.nan 4 = none :=
  (r_round_idempotent 4).2.1 JSVal.nan (fun _ h => JSVal.noConfusion h)

/-- Result record of `macd` in indicators.ts. -/
structure MacdOut where
  line : List (Option ℚ)
  signal : List (Option ℚ)
  hist : List (Option ℚ)

/-- Null-propagating subtraction: the JS pattern
`a != null && b != null ? a - b : null`. -/
def optSub : Option ℚ → Option ℚ → Option ℚ
  | some a, some b => some (a - b)
  | _, _ => none

/-- MACD of indicators.ts: line = EMA(fast) - EMA(slow) pointwise
(null-propagating); the signal EMA is fed the line with every null entry
replaced by the first non-null line value (0 when the line is entirely null,
the `?? 0` fallback); histogram = line - signal pointwise. -/
def macd (values : List ℚ) (fast slow sigPeriod : ℤ) : MacdOut :=
  let emaFast := ema values fast
  let emaSlow := ema values slow
  let line := (List.range values.length).map
    (fun i => optSub (emaFast.getD i none) (emaSlow.getD i none))
  let sig := ema (line.map (fun v => v.getD ((line.findSome? id).getD 0))) sigPeriod
  let hist := (List.range values.length).map
    (fun i => optSub (line.getD i none) (sig.getD i none))
  ⟨line, sig, hist⟩

lemma optSub_none_right (x : Option ℚ) : optSub x none = none := by
  cases x <;> rfl

lemma optSub_none_left (y : Option ℚ) : optSub none y = none := by
  cases y <;> rfl

lemma macd_line_getD (values : List ℚ) (f s g : ℤ) (i : ℕ) (hi : i < values.length) :
    (macd values f s g).line.getD i none =
      optSub ((ema values f).getD i none) ((ema values s).getD i none) := by
  have h1 : (macd values f s g).line = (List.range values.length).map
      (fun j => optSub ((ema values f).getD j none) ((ema values s).getD j none)) := rfl
  rw [h1, range_map_getD _ _ _ _ hi]

lemma macd_signal_def (values : List ℚ) (f s g : ℤ) :
    (macd values f s g).signal = ema ((macd values f s g).line.map
      (fun v => v.getD (((macd values f s g).line.findSome? id).getD 0))) g := rfl

lemma macd_hist_getD (values : List ℚ) (f s g : ℤ) (i : ℕ) (hi : i < values.length) :
    (macd values f s g).hist.getD i none =
      optSub ((macd values f s g).line.getD i none)
        ((macd values f s g).signal.getD i none) := by
  have h1 : (macd values f s g).hist = (List.range values.length).map
      (fun j => optSub ((macd values f s g).line.getD j none)
        ((macd values f s g).signal.getD j none)) := rfl
  rw [h1, range_map_getD _ _ _ _ hi]

lemma macd_line_length (values : List ℚ) (f s g : ℤ) :
    (macd values f s g).line.length = values.length := by
  have h1 : (macd values f s g).line = (List.range values.length).map
      (fun j => optSub ((ema values f).getD j none) ((ema values s).getD j none)) := rfl
  rw [h1, List.length_map, List.length_range]

lemma macd_signal_length (values : List ℚ) (f s g : ℤ) :
    (macd values f s g).signal.length = values.length := by
  rw [macd_signal_def, ema_length, List.length_map, macd_line_length]

/-- Claim C4: `macd(values, 12, 26, 9)` computes its signal series as the
period-9 EMA of the line series with each null line entry substituted by the
first non-null line value (here `w`), and the line is pointwise
EMA(12) - EMA(26), defined where both operands are and null where either is
null. -/
theorem macd_line_and_signal (values : List ℚ) (w : ℚ)
    (hw : (macd values 12 26 9).line.findSome? id = some w) :
    (macd values 12 26 9).signal =
      ema ((macd values 12 26 9).line.map (fun v => v.getD w)) 9 ∧
    (∀ i : ℕ, i < values.length →
      (∀ a b : ℚ, (ema values 12).getD i none = some a →
        (ema values 26).getD i none = some b →
        (macd values 12 26 9).line.getD i none = some (a - b)) ∧
      (((ema values 12).getD i none = none ∨ (ema values 26).getD i none = none) →
        (macd values 12 26 9).line.getD i none = none)) := by
  constructor
  · rw [macd_signal_def, hw]
    rfl
  · intro i hi
    rw [macd_line_getD values 12 26 9 i hi]
    constructor
    · intro a b ha hb
      rw [ha, hb]
      rfl
    · rintro (h | h)
      · rw [h, optSub_none_left]
      · rw [h, optSub_none_right]

/-- Claim C8: the MACD histogram entry is null exactly when the line or the
signal entry at the same index is null, and equals line - signal elsewhere. -/
theorem macd_hist_null_propagation (values : List ℚ) (i : ℕ) (hi : i < values.length) :
    ((macd values 12 26 9).hist.getD i none = none ↔
      ((macd values 12 26 9).line.getD i none = none ∨
       (macd values 12 26 9).signal.getD i none = none)) ∧
    (∀ a b : ℚ, (macd values 12 26 9).line.getD i none = some a →
      (macd values 12 26 9).signal.getD i none = some b →
      (macd values 12 26 9).hist.getD i none = some (a - b)) := by
  rw [macd_hist_getD values 12 26 9 i hi]
  constructor
  · cases hl : (macd values 12 26 9).line.getD i none with
    | none => simp [optSub_none_left]
    | some a =>
      cases hs : (macd values 12 26 9).signal.getD i none with
      | none => simp [optSub_none_right]
      | some b => simp [optSub]
  · intro a b ha hb
    rw [ha, hb]
    rfl

lemma getElem?_eq_some_getD {α : Type} (l : List α) (d : α) (i : ℕ) (h : i < l.length) :
    l[i]? = some (l.getD i d) := by
  rw [List.getElem?_eq_getElem h, List.getD_eq_getElem?_getD, List.getElem?_eq_getElem h]
  rfl

lemma getElem_eq_getD {α : Type} (l : List α) (i : ℕ) (d : α) (h : i < l.length) :
    l[i] = l.getD i d := by
  rw [List.getD_eq_getElem?_getD, List.getElem?_eq_getElem h]
  rfl

lemma getD_replicate_self {α : Type} (n j : ℕ) (a : α) :
    (List.replicate n a).getD j a = a := by
  by_cases h : j < n
  · exact replicate_getD n j a a h
  · rw [List.getD_eq_getElem?_getD, List.getElem?_eq_none (by rw [List.length_replicate]; omega)]
    rfl

lemma findSome?_id_eq_some_of {α : Type} (l : List (Option α)) (m : ℕ) (w : α)
    (hm : m < l.length) (hbefore : ∀ j, j < m → l.getD j none = none)
    (hat : l.getD m none = some w) : l.findSome? id = some w := by
  induction l generalizing m with
  | nil => simp at hm
  | cons a t ih =>
    cases m with
    | zero =>
      have ha : a = some w := hat
      rw [List.findSome?_cons, ha]
      rfl
    | succ m =>
      have ha : a = none := hbefore 0 (by omega)
      subst ha
      rw [List.findSome?_cons]
      exact ih m (by simpa using hm) (fun j hj => hbefore (j + 1) (by omega)) hat

lemma findSome?_id_eq_none_of {α : Type} (l : List (Option α))
    (h : ∀ j, j < l.length → l.getD j none = none) : l.findSome? id = none := by
  induction l with
  | nil => rfl
  | cons a t ih =>
    have ha : a = none := h 0 (by simp)
    subst ha
    rw [List.findSome?_cons]
    exact ih (fun j hj => h (j + 1) (by simpa using hj))

lemma emaVal_zero (vals : List ℚ) (p : ℕ) (k : ℚ) (hvals : ∀ j, vals.getD j 0 = 0) :
    ∀ i, emaVal vals p k i = 0 := by
  intro i
  induction i with
  | zero =>
    show seedAvg vals p = 0
    unfold seedAvg
    rw [Finset.sum_eq_zero (fun j _ => hvals j), zero_div]
  | succ i ih =>
    rw [emaVal]
    by_cases h : p ≤ i + 1
    · rw [if_pos h, hvals (i + 1), ih]
      ring
    · rw [if_neg h]
      unfold seedAvg
      rw [Finset.sum_eq_zero (fun j _ => hvals j), zero_div]

theorem macd_line_and_signal_witness :
    (macd (List.replicate 26 (0 : ℚ)) 12 26 9).signal =
      ema ((macd (List.replicate 26 (0 : ℚ)) 12 26 9).line.map
        (fun v => v.getD 0)) 9 := by
  have hzero : ∀ j, (List.replicate 26 (0 : ℚ)).getD j 0 = 0 :=
    fun j => getD_replicate_self 26 j 0
  have hlen : (List.replicate 26 (0 : ℚ)).length = 26 := List.length_replicate 26 0
  refine (macd_line_and_signal (List.replicate 26 (0 : ℚ)) 0 ?_).1
  refine findSome?_id_eq_some_of _ 25 0 (by rw [macd_line_length, hlen]; omega) ?_ ?_
  · intro j hj
    rw [macd_line_getD _ _ _ _ j (by omega),
      ema_getD_early (List.replicate 26 (0 : ℚ)) 26 (by norm_num) j (by omega)
        (by push_cast; omega)]
    exact optSub_none_right _
  · rw [macd_line_getD _ _ _ _ 25 (by omega),
      ema_getD_late (List.replicate 26 (0 : ℚ)) 12 (by norm_num) 25 (by omega)
        (by norm_num),
      ema_getD_late (List.replicate 26 (0 : ℚ)) 26 (by norm_num) 25 (by omega)
        (by norm_num),
      emaVal_zero _ _ _ hzero 25, emaVal_zero _ _ _ hzero 25]
    show some (0 - 0) = some 0
    norm_num

theorem macd_hist_null_propagation_witness :
    (macd [0] 12 26 9).hist.getD 0 none = none :=
  (macd_hist_null_propagation [0] 0 (by decide)).1.mpr (Or.inl (by decide))

/-- MACD summary triple of the IndicatorSet (AIIndicators.macd). -/
structure MacdTriple where
  line : Option ℚ
  signal : Option ℚ
  hist : Option ℚ
deriving DecidableEq

/-- Last-value indicator summary, the AIIndicators shape of the source. -/
structure AIIndicators where
  lastClose : Option ℚ
  sma20 : Option ℚ
  sma50 : Option ℚ
  sma200 : Option ℚ
  ema20 : Option ℚ
  ema50 : Option ℚ
  ema200 : Option ℚ
  macd : MacdTriple
  rsi14 : Option ℚ
deriving DecidableEq

/-- `summarizeIndicators` of indicators.ts: the last element of each series
(`.at(-1) ?? null`, i.e. null for an empty series and the possibly-null last
entry otherwise, which is `getLast?` composed with `join`). -/
def summarizeIndicators (closes : List ℚ) : AIIndicators :=
  let sma20 := sma closes 20
  let sma50 := sma closes 50
  let sma200 := sma closes 200
  let ema20 := ema closes 20
  let ema50 := ema closes 50
  let ema200 := ema closes 200
  let macdVals := macd closes 12 26 9
  let rsi14 := rsi closes 14
  { lastClose := closes.getLast?
    sma20 := sma20.getLast?.join
    sma50 := sma50.getLast?.join
    sma200 := sma200.getLast?.join
    ema20 := ema20.getLast?.join
    ema50 := ema50.getLast?.join
    ema200 := ema200.getLast?.join
    macd := { line := macdVals.line.getLast?.join
              signal := macdVals.signal.getLast?.join
              hist := macdVals.hist.getLast?.join }
    rsi14 := rsi14.getLast?.join }

lemma getLast?_join_eq {α : Type} (l : List (Option α)) (h : 0 < l.length) :
    l.getLast?.join = l.getD (l.length - 1) none := by
  rw [List.getLast?_eq_getElem?, getElem?_eq_some_getD l none (l.length - 1) (by omega)]
  rfl

lemma macd_hist_length (values : List ℚ) (f s g : ℤ) :
    (macd values f s g).hist.length = values.length := by
  have h1 : (macd values f s g).hist = (List.range values.length).map
      (fun j => optSub ((macd values f s g).line.getD j none)
        ((macd values f s g).signal.getD j none)) := rfl
  rw [h1, List.length_map, List.length_range]

/-- Claim C10: for 9 ≤ length < 26 the MACD line is entirely null (the
26-period EMA never seeds), while the null-substitution's `?? 0` fallback
feeds the signal EMA an all-zero series, so the signal is 0 from index 8
onward; `summarizeIndicators` therefore reports macd.signal = 0 with
macd.line and macd.hist null. -/
theorem macd_short_series_signal_zero (closes : List ℚ)
    (h9 : 9 ≤ closes.length) (h26 : closes.length < 26) :
    (∀ i, i < closes.length → (macd closes 12 26 9).line.getD i none = none) ∧
    (∀ i, i < 8 → (macd closes 12 26 9).signal.getD i none = none) ∧
    (∀ i, 8 ≤ i → i < closes.length →
      (macd closes 12 26 9).signal.getD i none = some 0) ∧
    (summarizeIndicators closes).macd.line = none ∧
    (summarizeIndicators closes).macd.signal = some 0 ∧
    (summarizeIndicators closes).macd.hist = none := by
  have hline : ∀ i, i < closes.length →
      (macd closes 12 26 9).line.getD i none = none := by
    intro i hi
    rw [macd_line_getD closes 12 26 9 i hi,
      ema_getD_early closes 26 (by norm_num) i hi (by push_cast; omega)]
    exact optSub_none_right _
  have hfs : (macd closes 12 26 9).line.findSome? id = none :=
    findSome?_id_eq_none_of _ (fun j hj =>
      hline j (by rwa [macd_line_length] at hj))
  have hsubGetD : ∀ j, ((macd closes 12 26 9).line.map
      (fun v => v.getD (((macd closes 12 26 9).line.findSome? id).getD 0))).getD j 0
        = 0 := by
    intro j
    by_cases hj : j < (macd closes 12 26 9).line.length
    · have hj' : j < closes.length := by rwa [macd_line_length] at hj
      rw [List.getD_eq_getElem?_getD, List.getElem?_map,
        getElem?_eq_some_getD _ none j hj]
      simp only [Option.map_some', Option.getD_some]
      rw [hline j hj', hfs]
      rfl
    · rw [List.getD_eq_getElem?_getD,
        List.getElem?_eq_none (by rw [List.length_map]; omega)]
      rfl
  have hmaplen : ((macd closes 12 26 9).line.map
      (fun v => v.getD (((macd closes 12 26 9).line.findSome? id).getD 0))).length
        = closes.length := by
    rw [List.length_map, macd_line_length]
  have hsigzero : ∀ i, 8 ≤ i → i < closes.length →
      (macd closes 12 26 9).signal.getD i none = some 0 := by
    intro i h8 hi
    rw [macd_signal_def,
      ema_getD_late _ 9 (by norm_num) i (by rw [hmaplen]; exact hi)
        (by push_cast; omega),
      emaVal_zero _ _ _ hsubGetD i]
  have hsignone : ∀ i, i < 8 →
      (macd closes 12 26 9).signal.getD i none = none := by
    intro i h8
    rw [macd_signal_def]
    exact ema_getD_early _ 9 (by norm_num) i (by rw [hmaplen]; omega)
      (by push_cast; omega)
  refine ⟨hline, hsignone, hsigzero, ?_, ?_, ?_⟩
  · have h1 : (summarizeIndicators closes).macd.line =
        (macd closes 12 26 9).line.getLast?.join := rfl
    rw [h1, getLast?_join_eq _ (by rw [macd_line_length]; omega), macd_line_length]
    exact hline (closes.length - 1) (by omega)
  · have h1 : (summarizeIndicators closes).macd.signal =
        (macd closes 12 26 9).signal.getLast?.join := rfl
    rw [h1, getLast?_join_eq _ (by rw [macd_signal_length]; omega), macd_signal_length]
    exact hsigzero (closes.length - 1) (by omega) (by omega)
  · have h1 : (summarizeIndicators closes).macd.hist =
        (macd closes 12 26 9).hist.getLast?.join := rfl
    rw [h1, getLast?_join_eq _ (by rw [macd_hist_length]; omega), macd_hist_length,
      macd_hist_getD closes 12 26 9 _ (by omega), hline _ (by omega), optSub_none_left]

theorem macd_short_series_signal_zero_witness :
    (summarizeIndicators (List.replicate 9 (0 : ℚ))).macd.signal = some 0 :=
  (macd_short_series_signal_zero (List.replicate 9 (0 : ℚ))
    (by rw [List.length_replicate]) (by rw [List.length_replicate]; omega)).2.2.2.2.1

/-- Input chart point {t, y} of the builder. -/
structure ChartPoint where
  t : ℤ
  y : ℚ
deriving DecidableEq

/-- Embedded series point {t, c} of the payload. -/
structure PricePoint where
  t : ℤ
  c : ℚ
deriving DecidableEq

/-- JS value of an optional string property, distinguishing an absent
property / undefined value from an explicit null and from a string.  The
builder copies the per-news-item optional keys without a null fallback, so
the undefined/null distinction is observable in its output (undefined keys
are omitted by JSON serialization, null keys are kept). -/
inductive JSField where
  | undef
  | null
  | str (s : String)
deriving DecidableEq

/-- News item shape: id and title are required strings, the remaining keys are
optional in the TS type (may be absent, i.e. undefined). -/
structure AINewsItem where
  id : String
  title : String
  published_utc : JSField
  publisher : JSField
  article_url : JSField
deriving DecidableEq

/-- Quote block input of the builder. -/
structure AIQuote where
  price : Option ℚ
  change : Option ℚ
  changePct : Option ℚ
  dayHigh : Option ℚ
  dayLow : Option ℚ
  prevClose : Option ℚ
  volume : Option ℚ
  currency : Option String
deriving DecidableEq

/-- Optional fundamentals input of the builder. -/
structure AIDetails where
  name : Option String
  market_cap : Option ℚ
  primary_exchange : Option String
  industry : Option String
  homepage_url : Option String
deriving DecidableEq

/-- 52-week stats input of the builder (both fields required when present). -/
structure YearStats where
  high : ℚ
  low : ℚ
deriving DecidableEq

/-- Argument record of `buildAIPayload`. -/
structure BuildArgs where
  ticker : String
  nowISO : String
  quote : AIQuote
  details : Option AIDetails
  yearStats : Option YearStats
  oneYearReturn : Option ℚ
  avgVolume : Option ℚ
  indicators : Option AIIndicators
  chartData : List ChartPoint
  news : Option (List AINewsItem)

/-- Price block of the payload. -/
structure PayloadPrice where
  last : Option ℚ
  change : Option ℚ
  changePct : Option ℚ
  dayHigh : Option ℚ
  dayLow : Option ℚ
  prevClose : Option ℚ
  volume : Option ℚ
  currency : Option String
deriving DecidableEq

/-- Fundamentals block of the payload. -/
structure PayloadFundamentals where
  name : Option String
  marketCap : Option ℚ
  exchange : Option String
  industry : Option String
  homepage : Option String
deriving DecidableEq

/-- Stats block of the payload. -/
structure PayloadStats where
  high52w : Option ℚ
  low52w : Option ℚ
  return1y : Option ℚ
  avgVolume90d : Option ℚ
deriving DecidableEq

/-- Series block of the payload. -/
structure PayloadSeries where
  timeframe : String
  points : List PricePoint
deriving DecidableEq

/-- The LLM-facing payload shape; every listed field key is always present
(the `never throws, always present with value null` contract is modelled by
this total structure with Option values). -/
structure AIPayload where
  ticker : String
  asOf : String
  price : PayloadPrice
  fundamentals : PayloadFundamentals
  stats : PayloadStats
  indicators : AIIndicators
  series : PayloadSeries
  news : List AINewsItem
deriving DecidableEq

/-- View of a nullable number as the JS value handed to `r` (JS null and
undefined are both non-numbers for `typeof n !== "number"`). -/
def jsOfOpt : Option ℚ → JSVal
  | some x => JSVal.num x
  | none => JSVal.nonNum

/-- `buildAIPayload` of the source: trims the chart series to the last 180
points projected to {t, c}, rounds every numeric leaf through `r` (precision
4, or 0 for volumes/market cap), defaults every missing optional chain to
null, and truncates the news list to its first 8 items. -/
def buildAIPayload (args : BuildArgs) : AIPayload :=
  let maxPoints : ℕ := 180
  let trimmed := (args.chartData.drop (args.chartData.length - maxPoints)).map
    (fun p => PricePoint.mk p.t p.y)
  { ticker := args.ticker.toUpper
    asOf := args.nowISO
    price := { last := r (jsOfOpt args.quote.price) 4
               change := r (jsOfOpt args.quote.change) 4
               changePct := r (jsOfOpt args.quote.changePct) 4
               dayHigh := r (jsOfOpt args.quote.dayHigh) 4
               dayLow := r (jsOfOpt args.quote.dayLow) 4
               prevClose := r (jsOfOpt args.quote.prevClose) 4
               volume := r (jsOfOpt args.quote.volume) 0
               currency := args.quote.currency }
    fundamentals := { name := args.details.bind (fun d => d.name)
                      marketCap := r (jsOfOpt (args.details.bind (fun d => d.market_cap))) 0
                      exchange := args.details.bind (fun d => d.primary_exchange)
                      industry := args.details.bind (fun d => d.industry)
                      homepage := args.details.bind (fun d => d.homepage_url) }
    stats := { high52w := r (jsOfOpt (args.yearStats.map (fun y => y.high))) 4
               low52w := r (jsOfOpt (args.yearStats.map (fun y => y.low))) 4
               return1y := r (jsOfOpt args.oneYearReturn) 4
               avgVolume90d := r (jsOfOpt args.avgVolume) 0 }
    indicators := { lastClose := r (jsOfOpt (args.indicators.bind (fun x => x.lastClose))) 4
                    sma20 := r (jsOfOpt (args.indicators.bind (fun x => x.sma20))) 4
                    sma50 := r (jsOfOpt (args.indicators.bind (fun x => x.sma50))) 4
                    sma200 := r (jsOfOpt (args.indicators.bind (fun x => x.sma200))) 4
                    ema20 := r (jsOfOpt (args.indicators.bind (fun x => x.ema20))) 4
                    ema50 := r (jsOfOpt (args.indicators.bind (fun x => x.ema50))) 4
                    ema200 := r (jsOfOpt (args.indicators.bind (fun x => x.ema200))) 4
                    macd := { line := r (jsOfOpt (args.indicators.bind (fun x => x.macd.line))) 4
                              signal := r (jsOfOpt (args.indicators.bind (fun x => x.macd.signal))) 4
                              hist := r (jsOfOpt (args.indicators.bind (fun x => x.macd.hist))) 4 }
                    rsi14 := r (jsOfOpt (args.indicators.bind (fun x => x.rsi14))) 4 }
    series := { timeframe := "daily", points := trimmed }
    news := ((args.news.getD []).take 8).map
      (fun n => { id := n.id, title := n.title, published_utc := n.published_utc,
                  publisher := n.publisher, article_url := n.article_url }) }

/-- Builder input with details missing but news present, whose single news
item lacks all three of its optional keys (a combination the claim's
quantification covers: only some optional inputs missing). -/
def argsNewsNoDates : BuildArgs :=
  { ticker := "aapl"
    nowISO := "2024-01-01T00:00:00Z"
    quote := ⟨none, none, none, none, none, none, none, none⟩
    details := none
    yearStats := none
    oneYearReturn := none
    avgVolume := none
    indicators := none
    chartData := []
    news := some [⟨"n1", "headline", JSField.undef, JSField.undef, JSField.undef⟩] }

/-- Claim C3 counterexample: at a combination with news present, the builder
copies an absent per-item published_utc as undefined (the source has no
`?? null` on the news item fields), so the emitted key is undefined — not
null — while the underlying datum is unavailable, refuting the claim's
never-omitted-never-undefined clause at this concrete input. -/
theorem buildAIPayload_news_undefined_counterexample :
    ((buildAIPayload argsNewsNoDates).news.getD 0
        ⟨"", "", JSField.undef, JSField.undef, JSField.undef⟩).published_utc
      = JSField.undef ∧
    ((buildAIPayload argsNewsNoDates).news.getD 0
        ⟨"", "", JSField.undef, JSField.undef, JSField.undef⟩).published_utc
      ≠ JSField.null := by
  constructor
  · rfl
  · intro h
    exact JSField.noConfusion h

/-- Claim C3 (amended): `buildAIPayload` is total (never throws) and, for
every combination of missing optional inputs independently, every documented
top-level field key is present with value null where the underlying datum is
unavailable, and null-or-empty news yields an empty news list; the per-item
keys id and title are always present, but the optional per-item keys
(published_utc, publisher, article_url) are copied from the input item
unchanged — the news list is exactly the first 8 input items — so an absent
input key stays undefined in the output rather than becoming null. -/
theorem buildAIPayload_null_defaults (args : BuildArgs) :
    (args.details = none →
      (buildAIPayload args).fundamentals = ⟨none, none, none, none, none⟩) ∧
    (args.yearStats = none →
      (buildAIPayload args).stats.high52w = none ∧
      (buildAIPayload args).stats.low52w = none) ∧
    (args.oneYearReturn = none → (buildAIPayload args).stats.return1y = none) ∧
    (args.avgVolume = none → (buildAIPayload args).stats.avgVolume90d = none) ∧
    (args.indicators = none →
      (buildAIPayload args).indicators =
        ⟨none, none, none, none, none, none, none, ⟨none, none, none⟩, none⟩) ∧
    ((args.news = none ∨ args.news = some []) → (buildAIPayload args).news = []) ∧
    (buildAIPayload args).news = (args.news.getD []).take 8 := by
  refine ⟨?_, ?_, ?_, ?_, ?_, ?_, ?_⟩
  · intro hd
    simp [buildAIPayload, hd, r, jsOfOpt]
  · intro hy
    simp [buildAIPayload, hy, r, jsOfOpt]
  · intro ho
    simp [buildAIPayload, ho, r, jsOfOpt]
  · intro ha
    simp [buildAIPayload, ha, r, jsOfOpt]
  · intro hi
    simp [buildAIPayload, hi, r, jsOfOpt]
  · rintro (hn | hn) <;> simp [buildAIPayload, hn]
  · show ((args.news.getD []).take 8).map (fun n => n) = (args.news.getD []).take 8
    exact List.map_id' _

theorem buildAIPayload_null_defaults_witness :
    (buildAIPayload argsNewsNoDates).fundamentals = ⟨none, none, none, none, none⟩ ∧
    (buildAIPayload argsNewsNoDates).news = (argsNewsNoDates.news.getD []).take 8 :=
  ⟨(buildAIPayload_null_defaults argsNewsNoDates).1 rfl,
   (buildAIPayload_null_defaults argsNewsNoDates).2.2.2.2.2.2⟩

/-- Claim C7: the embedded series holds min(L, 180) points; its i-th point is
the input point at index L - 180 + i (so for L > 180 exactly the most recent
180 input points, in order, and all L points otherwise), reduced to {t, c}. -/
theorem buildAIPayload_series_bound (args : BuildArgs) :
    (buildAIPayload args).series.points.length = min args.chartData.length 180 ∧
    (∀ i, i < min args.chartData.length 180 →
      (buildAIPayload args).series.points.getD i ⟨0, 0⟩ =
        PricePoint.mk (args.chartData.getD (args.chartData.length - 180 + i) ⟨0, 0⟩).t
          (args.chartData.getD (args.chartData.length - 180 + i) ⟨0, 0⟩).y) := by
  have hpts : (buildAIPayload args).series.points =
      (args.chartData.drop (args.chartData.length - 180)).map
        (fun p => PricePoint.mk p.t p.y) := by
    simp only [buildAIPayload]
  constructor
  · rw [hpts, List.length_map, List.length_drop]
    omega
  · intro i hi
    rw [hpts]
    have hlen : i < ((args.chartData.drop (args.chartData.length - 180)).map
        (fun p => PricePoint.mk p.t p.y)).length := by
      rw [List.length_map, List.length_drop]
      omega
    rw [List.getD_eq_getElem?_getD, List.getElem?_eq_getElem hlen, Option.getD_some,
      List.getElem_map, List.getElem_drop,
      getElem_eq_getD args.chartData (args.chartData.length - 180 + i) ⟨0, 0⟩ (by omega)]

/-- Concrete argument record with a 181-point chart series. -/
def argsLongSeries : BuildArgs :=
  { ticker := "aapl"
    nowISO := "2024-01-01T00:00:00Z"
    quote := ⟨none, none, none, none, none, none, none, none⟩
    details := none
    yearStats := none
    oneYearReturn := none
    avgVolume := none
    indicators := none
    chartData := List.replicate 181 ⟨0, 0⟩
    news := none }

theorem buildAIPayload_series_bound_witness :
    (buildAIPayload argsLongSeries).series.points.length = 180 := by
  have h := (buildAIPayload_series_bound argsLongSeries).1
  rw [h]
  simp [argsLongSeries]

/-- Bar fields used by the trailing-return computation in App.tsx (close and
open may each be absent in the upstream record). -/
structure Bar where
  c : Option ℚ
  o : Option ℚ
deriving DecidableEq

/-- Trailing-period return computed over the fetched bar window in App.tsx:
guarded by rows.length >= 2, endpoints are close ?? open of the first and
last bar, and the JS truthiness test `firstClose && lastClose` makes the
result null when either endpoint is absent or exactly 0. -/
def trailingReturn (rows : List Bar) : Option ℚ :=
  if 2 ≤ rows.length then
    let first := rows.headD ⟨none, none⟩
    let last := rows.getLastD ⟨none, none⟩
    let firstClose := first.c.orElse (fun _ => first.o)
    let lastClose := last.c.orElse (fun _ => last.o)
    match firstClose, lastClose with
    | some fc, some lc =>
      if fc ≠ 0 ∧ lc ≠ 0 then some ((lc - fc) / fc * 100) else none
    | _, _ => none
  else none

/-- Claim C9: the trailing return is (last - first)/first * 100 with each
endpoint taken as the bar's close falling back to its open, and null when
fewer than 2 bars are present or when either endpoint price is absent or
zero. -/
theorem trailing_return_spec (rows : List Bar) :
    (rows.length < 2 → trailingReturn rows = none) ∧
    (∀ f l fc lc, 2 ≤ rows.length → rows.head? = some f → rows.getLast? = some l →
      f.c.orElse (fun _ => f.o) = some fc → l.c.orElse (fun _ => l.o) = some lc →
      trailingReturn rows =
        if fc = 0 ∨ lc = 0 then none else some ((lc - fc) / fc * 100)) ∧
    (∀ f l, 2 ≤ rows.length → rows.head? = some f → rows.getLast? = some l →
      (f.c.orElse (fun _ => f.o) = none ∨ l.c.orElse (fun _ => l.o) = none) →
      trailingReturn rows = none) := by
  refine ⟨?_, ?_, ?_⟩
  · intro h
    unfold trailingReturn
    rw [if_neg (by omega)]
  · intro f l fc lc h2 hf hl hfc hlc
    unfold trailingReturn
    rw [if_pos h2]
    simp only [List.headD_eq_head?, List.getLastD_eq_getLast?, hf, hl, Option.getD_some]
    rw [hfc, hlc]
    show (if fc ≠ 0 ∧ lc ≠ 0 then some ((lc - fc) / fc * 100) else none) = _
    by_cases hc : fc = 0 ∨ lc = 0
    · rw [if_pos hc, if_neg (by tauto)]
    · rw [if_neg hc, if_pos (by tauto)]
  · intro f l h2 hf hl hcase
    unfold trailingReturn
    rw [if_pos h2]
    simp only [List.headD_eq_head?, List.getLastD_eq_getLast?, hf, hl, Option.getD_some]
    rcases hcase with h | h
    · rw [h]
    · rw [h]
      cases f.c.orElse (fun _ => f.o) <;> rfl

theorem trailing_return_spec_witness :
    trailingReturn [Bar.mk (some 1) none, Bar.mk (some 2) none] =
      if (1 : ℚ) = 0 ∨ (2 : ℚ) = 0 then none
      else some (((2 : ℚ) - 1) / 1 * 100) :=
  (trailing_return_spec [Bar.mk (some 1) none, Bar.mk (some 2) none]).2.1
    ⟨some 1, none⟩ ⟨some 2, none⟩ 1 2 (by decide) rfl rfl rfl rfl
